import Mathlib

/-!
Shallow embedding of the charge-flow electrostatics engine (src/sketch.js,
with the earlier iteration src/unnamed/part_000 embedded in namespace `V0`
where a claim is about that iteration).  Numbers are modelled as real
numbers; the JavaScript value `Infinity` used to initialise the running
nearest-source distance is modelled as `⊤` in `WithTop ℝ`.
Division follows Lean's total-division convention.
-/

open Classical

noncomputable section

/-- Coulomb's law constant (src/sketch.js line 1). -/
def K : ℝ := 8.99e9

def STATIC_PARTICLE_CHARGE : ℝ := 1e-9

def DYNAMIC_PARTICLE_CHARGE : ℝ := 1e-9

def DYNAMIC_PARTICLE_MASS : ℝ := 3e-9

def DYNAMIC_PARTICLE_SUBSTEPS : ℕ := 25

def DYNAMIC_DIPOLE_SPACING : ℝ := 0.5

def PIXELS_PER_METER : ℝ := 100

/-- Steps per frame of a flow-line tracer (src/sketch.js line 13). -/
def TRACER_STEPS_PER_FRAME : ℕ := 25

/-- Micro-step length of a flow-line tracer in meters (src/sketch.js line 14). -/
def TRACER_STEP_DISTANCE : ℝ := 0.005

def TRACER_ARROW_SIZE : ℝ := 3

/-- The proximity guard distance (src/sketch.js line 17). -/
def TOO_CLOSE : ℝ := 6 / PIXELS_PER_METER

/-- A point charge record `{x, y, charge}`.  The same record shape serves
both `StaticParticle` objects and the transient charge-location objects
returned by `getChargeLocations` in the JavaScript source. -/
structure StaticParticle where
  x : ℝ
  y : ℝ
  charge : ℝ

/-- Return value of `getElecField` (src/sketch.js lines 55-60). -/
structure ElecField where
  x : ℝ
  y : ℝ
  pot : ℝ
  dist : ℝ

/-- Field and potential of one source charge at a point
(src/sketch.js lines 47-61). -/
def getElecField (particle : StaticParticle) (x y : ℝ) : ElecField :=
  let dx := x - particle.x
  let dy := y - particle.y
  let distSquared := dx * dx + dy * dy
  let dist := Real.sqrt distSquared
  let elecPotential := K * particle.charge / dist
  let elecField := elecPotential / dist
  { x := dx / dist * elecField
    y := dy / dist * elecField
    pot := elecPotential
    dist := dist }

/-- Return value of `getNetElecField` (src/sketch.js line 96); `closestDist`
starts at JavaScript `Infinity`, modelled as `⊤ : WithTop ℝ`. -/
structure NetField where
  x : ℝ
  y : ℝ
  pot : ℝ
  closestDist : WithTop ℝ

structure DynamicParticle where
  x : ℝ
  y : ℝ
  charge : ℝ
  mass : ℝ
  velX : ℝ
  velY : ℝ

structure DynamicDipole where
  x : ℝ
  y : ℝ
  angle : ℝ
  charge1 : ℝ
  charge2 : ℝ
  velX : ℝ
  velY : ℝ
  rotVel : ℝ
  offset1 : ℝ
  offset2 : ℝ
  mass : ℝ
  moi : ℝ

/-- The two kinds of dynamic bodies kept in the `dynamics` array. -/
inductive DynamicBody where
  | particle : DynamicParticle → DynamicBody
  | dipole : DynamicDipole → DynamicBody

/-- `DynamicParticle.getChargeLocations` (src/sketch.js lines 109-113). -/
def DynamicParticle.getChargeLocations (b : DynamicParticle) : List StaticParticle :=
  [{ x := b.x, y := b.y, charge := b.charge }]

/-- `DynamicDipole.getChargeLocations` (src/sketch.js lines 180-193). -/
def DynamicDipole.getChargeLocations (d : DynamicDipole) : List StaticParticle :=
  let sinAngle := Real.sin d.angle
  let cosAngle := Real.cos d.angle
  [{ x := d.x + d.offset1 * cosAngle, y := d.y + d.offset1 * sinAngle, charge := d.charge1 },
   { x := d.x + d.offset2 * cosAngle, y := d.y + d.offset2 * sinAngle, charge := d.charge2 }]

def DynamicBody.getChargeLocations : DynamicBody → List StaticParticle
  | .particle b => b.getChargeLocations
  | .dipole d => d.getChargeLocations

/-- Loop body of the static-particle loop in `getNetElecField`
(src/sketch.js lines 69-78). -/
def accumStatic (x y : ℝ) (acc : NetField) (particle : StaticParticle) : NetField :=
  let field := getElecField particle x y
  { x := acc.x + field.x
    y := acc.y + field.y
    pot := acc.pot + field.pot
    closestDist :=
      if (field.dist : WithTop ℝ) < acc.closestDist then (field.dist : WithTop ℝ)
      else acc.closestDist }

/-- Loop body of the charge-location loop in `getNetElecField`
(src/sketch.js lines 81-93): a location only contributes when its distance
exceeds `TOO_CLOSE`, and neither the potential nor the running nearest
distance is touched. -/
def accumLocation (x y : ℝ) (acc : NetField) (location : StaticParticle) : NetField :=
  let field := getElecField location x y
  if TOO_CLOSE < field.dist then
    { x := acc.x + field.x, y := acc.y + field.y, pot := acc.pot, closestDist := acc.closestDist }
  else acc

/-- Loop body of the dynamics loop in `getNetElecField`
(src/sketch.js lines 80-94). -/
def accumDynamic (x y : ℝ) (acc : NetField) (dynamic : DynamicBody) : NetField :=
  dynamic.getChargeLocations.foldl (accumLocation x y) acc

/-- `getNetElecField` (src/sketch.js lines 63-97). -/
def getNetElecField (particles : List StaticParticle) (dynamics : List DynamicBody)
    (x y : ℝ) : NetField :=
  dynamics.foldl (accumDynamic x y)
    (particles.foldl (accumStatic x y) { x := 0, y := 0, pot := 0, closestDist := ⊤ })

/-- `DynamicParticle.update` (src/sketch.js lines 115-136).  The JavaScript
method mutates `this` and returns a keep-flag; here it returns the flag
paired with the state of the body after the call. -/
def DynamicParticle.update (b : DynamicParticle) (particles : List StaticParticle)
    (dynamics : List DynamicBody) (dt : ℝ) : Bool × DynamicParticle :=
  let nf := getNetElecField particles dynamics b.x b.y
  if nf.closestDist < (TOO_CLOSE : WithTop ℝ) then (false, b)
  else
    let netX := nf.x * b.charge
    let netY := nf.y * b.charge
    let accelX := netX / b.mass
    let accelY := netY / b.mass
    let velX := b.velX + accelX * dt
    let velY := b.velY + accelY * dt
    (true, { b with velX := velX, velY := velY, x := b.x + velX * dt, y := b.y + velY * dt })

/-- `perpComponent` (src/sketch.js lines 148-158): signed magnitude of the
component of B perpendicular (90° counter-clockwise) to A. -/
def perpComponent (ax ay bx by' : ℝ) : ℝ :=
  let magA := Real.sqrt (ax * ax + ay * ay)
  let perpAX := -ay / magA
  let perpAY := ax / magA
  perpAX * bx + perpAY * by'

/-- The `DynamicDipole` constructor (src/sketch.js lines 161-178). -/
def mkDynamicDipole (x y charge1 charge2 mass1 mass2 spacing : ℝ) : DynamicDipole :=
  let c := mass2 * spacing / (mass1 + mass2)
  { x := x
    y := y
    angle := 0
    charge1 := charge1
    charge2 := charge2
    velX := 0
    velY := 0
    rotVel := 0
    offset1 := -c
    offset2 := spacing - c
    mass := mass1 + mass2
    moi := mass1 * (-c) * (-c) + mass2 * (spacing - c) * (spacing - c) }

/-- `DynamicDipole.update` (src/sketch.js lines 195-232), as keep-flag plus
post-call state. -/
def DynamicDipole.update (d : DynamicDipole) (particles : List StaticParticle)
    (dynamics : List DynamicBody) (dt : ℝ) : Bool × DynamicDipole :=
  let sinAngle := Real.sin d.angle
  let cosAngle := Real.cos d.angle
  let x1 := d.x + d.offset1 * cosAngle
  let y1 := d.y + d.offset1 * sinAngle
  let x2 := d.x + d.offset2 * cosAngle
  let y2 := d.y + d.offset2 * sinAngle
  let field1 := getNetElecField particles dynamics x1 y1
  let field2 := getNetElecField particles dynamics x2 y2
  if field1.closestDist < (TOO_CLOSE : WithTop ℝ) ∨ field2.closestDist < (TOO_CLOSE : WithTop ℝ) then
    (false, d)
  else
    let force1x := field1.x * d.charge1
    let force1y := field1.y * d.charge1
    let force2x := field2.x * d.charge2
    let force2y := field2.y * d.charge2
    let torque1 := perpComponent (x1 - d.x) (y1 - d.y) force1x force1y * |d.offset1|
    let torque2 := perpComponent (x2 - d.x) (y2 - d.y) force2x force2y * |d.offset2|
    let accelX := (force1x + force2x) / d.mass
    let accelY := (force1y + force2y) / d.mass
    let rotAccel := (torque1 + torque2) / d.moi
    let velX := d.velX + accelX * dt
    let velY := d.velY + accelY * dt
    let rotVel := d.rotVel + rotAccel * dt
    let d' := { d with
      velX := velX
      velY := velY
      rotVel := rotVel
      x := d.x + velX * dt
      y := d.y + velY * dt
      angle := d.angle + rotVel * dt }
    (true, d')

/-- Polymorphic dispatch of `update` over the two body kinds. -/
def DynamicBody.update (body : DynamicBody) (particles : List StaticParticle)
    (dynamics : List DynamicBody) (dt : ℝ) : Bool × DynamicBody :=
  match body with
  | .particle b =>
      let r := b.update particles dynamics dt
      (r.1, .particle r.2)
  | .dipole d =>
      let r := d.update particles dynamics dt
      (r.1, .dipole r.2)

/-- One inner pass of the substep loop in `draw` (src/sketch.js lines
398-406): the bodies of the `dynamics` array are updated left to right and a
body whose `update` returns `false` is spliced out on the spot.  Each body
carries an inert numeric tag standing for JavaScript object identity (the
tags are threaded through untouched; `update` never reads them).  The first
argument accumulates the already-processed survivors of this pass; because
`interact` aliases the live `dynamics` array in the source, the context a
body sees is the concatenation of the processed prefix with the unprocessed
suffix (itself included). -/
def substepPass (particles : List StaticParticle) (interact : Bool) (dt : ℝ) :
    List (ℕ × DynamicBody) → List (ℕ × DynamicBody) → List (ℕ × DynamicBody)
  | done, [] => done
  | done, (i, b) :: rest =>
      let ctx := if interact then (done ++ (i, b) :: rest).map Prod.snd else []
      let r := DynamicBody.update b particles ctx dt
      if r.1 then substepPass particles interact dt (done ++ [(i, r.2)]) rest
      else substepPass particles interact dt done rest

/-- The substep-major frame loop of `draw` (src/sketch.js lines 396-406):
`n` passes of `substepPass`, each starting from an empty processed prefix.
`dt` is the per-substep time delta `(1/30) / DYNAMIC_PARTICLE_SUBSTEPS`. -/
def stepFrame (particles : List StaticParticle) (interact : Bool) (dt : ℝ) :
    ℕ → List (ℕ × DynamicBody) → List (ℕ × DynamicBody)
  | 0, bodies => bodies
  | n + 1, bodies => stepFrame particles interact dt n (substepPass particles interact dt [] bodies)

/-- The identity tags of a tagged body list. -/
def idsOf (bodies : List (ℕ × DynamicBody)) : List ℕ :=
  bodies.map Prod.fst

/-- `crossesMultiple` (src/sketch.js lines 252-257): whether an integer
multiple of `interval` lies between `before` and `after`. -/
def crossesMultiple (before after interval : ℝ) : Prop :=
  Int.floor (before / interval) ≠ Int.floor (after / interval)

/-- State of a `FlowLineTracer` (src/sketch.js lines 259-268).
`distSinceArrow` is initialised to 0 by the constructor and never used by
this iteration's `updateAndDraw`; `prevPotential` starts as `null`. -/
structure FlowLineTracer where
  x : ℝ
  y : ℝ
  direction : ℝ
  distSinceArrow : ℝ
  prevPotential : Option ℝ

/-- What one micro-step of `FlowLineTracer.updateAndDraw` produces: the new
tracer state, the polyline segment passed to `g.line`, and whether the
arrow-mark chevron was drawn this step. -/
structure TracerStepResult where
  tracer : FlowLineTracer
  segment : (ℝ × ℝ) × (ℝ × ℝ)
  arrowDrawn : Bool

/-- One iteration of the micro-step loop in `FlowLineTracer.updateAndDraw`
(src/sketch.js lines 271-306).  The field is always normalized and the
position always advanced: the source has no zero-field guard.  (With exact
real semantics a zero field yields direction `0/0 = 0` by Lean's
total-division convention; in the JavaScript source the same step computes
`0/0 = NaN` and corrupts the position.) -/
def FlowLineTracer.microStep (t : FlowLineTracer) (particles : List StaticParticle)
    (arrowSpacing : ℝ) : TracerStepResult :=
  let nf := getNetElecField particles [] t.x t.y
  let netField := Real.sqrt (nf.x * nf.x + nf.y * nf.y)
  let dirX := nf.x / netField
  let dirY := nf.y / netField
  let arrowDrawn : Bool :=
    if |nf.pot| < 40 ∧ ∃ p, t.prevPotential = some p ∧ crossesMultiple p nf.pot arrowSpacing
    then true else false
  let newX := t.x + dirX * TRACER_STEP_DISTANCE * t.direction
  let newY := t.y + dirY * TRACER_STEP_DISTANCE * t.direction
  { tracer := { t with x := newX, y := newY, prevPotential := some nf.pot }
    segment := ((t.x, t.y), (newX, newY))
    arrowDrawn := arrowDrawn }

namespace V0

/-!
Embedding of the earlier iteration of the sketch, src/unnamed/part_000.
Only the parts a claim refers to are embedded: the combined
field/nearest-distance evaluator `getNetElecPotential` and the
`FlowLineTracer` with its distance-based arrow spacing.
-/

/-- Steps per frame of this iteration's tracer (src/unnamed/part_000
line 12). -/
def TRACER_STEPS_PER_FRAME : ℕ := 10

/-- Micro-step length of this iteration's tracer (src/unnamed/part_000
line 13). -/
def TRACER_STEP_DISTANCE : ℝ := 0.025

/-- Loop body of `getNetElecPotential` (src/unnamed/part_000 lines 46-59). -/
def accumPotential (x y : ℝ) (acc : ℝ × ℝ × WithTop ℝ) (particle : StaticParticle) :
    ℝ × ℝ × WithTop ℝ :=
  let dx := x - particle.x
  let dy := y - particle.y
  let distSquared := dx * dx + dy * dy
  let dist := Real.sqrt distSquared
  let elecPotential := K * particle.charge / distSquared
  (acc.1 + dx / dist * elecPotential,
   acc.2.1 + dy / dist * elecPotential,
   if (dist : WithTop ℝ) < acc.2.2 then (dist : WithTop ℝ) else acc.2.2)

/-- `getNetElecPotential` (src/unnamed/part_000 lines 41-62), returning
`(x, y, closestDist)`. -/
def getNetElecPotential (particles : List StaticParticle) (x y : ℝ) :
    ℝ × ℝ × WithTop ℝ :=
  particles.foldl (accumPotential x y) (0, 0, ⊤)

/-- State of this iteration's `FlowLineTracer` (src/unnamed/part_000 lines
193-201): the arclength accumulated since the last arrow persists across
frames in `distSinceArrow`. -/
structure FlowLineTracer where
  x : ℝ
  y : ℝ
  direction : ℝ
  distSinceArrow : ℝ

/-- One iteration of the micro-step loop of this iteration's
`FlowLineTracer.updateAndDraw` (src/unnamed/part_000 lines 204-241),
returning the new tracer state and whether an arrow mark was drawn.  The
arclength accumulator grows by `TRACER_STEP_DISTANCE` each step and is
reset by subtracting `arrowSpacing` when it reaches it. -/
def FlowLineTracer.microStep (t : FlowLineTracer) (particles : List StaticParticle)
    (arrowSpacing : ℝ) : FlowLineTracer × Bool :=
  let nf := getNetElecPotential particles t.x t.y
  let netPotential := Real.sqrt (nf.1 * nf.1 + nf.2.1 * nf.2.1)
  let dirX := nf.1 / netPotential
  let dirY := nf.2.1 / netPotential
  let newX := t.x + dirX * TRACER_STEP_DISTANCE * t.direction
  let newY := t.y + dirY * TRACER_STEP_DISTANCE * t.direction
  if 0 < arrowSpacing then
    let dist := t.distSinceArrow + TRACER_STEP_DISTANCE
    if arrowSpacing ≤ dist then
      ({ x := newX, y := newY, direction := t.direction, distSinceArrow := dist - arrowSpacing },
       true)
    else
      ({ x := newX, y := newY, direction := t.direction, distSinceArrow := dist }, false)
  else
    ({ x := newX, y := newY, direction := t.direction, distSinceArrow := t.distSinceArrow }, false)

/-- `n` micro-steps of a tracer, crossing frame boundaries freely (each
frame runs `TRACER_STEPS_PER_FRAME` consecutive micro-steps; the tracer
state, including `distSinceArrow`, persists between frames). -/
def iterSteps (particles : List StaticParticle) (arrowSpacing : ℝ) :
    ℕ → FlowLineTracer → FlowLineTracer
  | 0, t => t
  | n + 1, t => iterSteps particles arrowSpacing n (t.microStep particles arrowSpacing).1

/-- Whether the `(n+1)`-st micro-step of a tracer draws an arrow mark. -/
def emitsAt (particles : List StaticParticle) (arrowSpacing : ℝ)
    (t : FlowLineTracer) (n : ℕ) : Bool :=
  ((iterSteps particles arrowSpacing n t).microStep particles arrowSpacing).2

end V0

/-! ### Structural lemmas about `getNetElecField` -/

lemma foldl_accumStatic_x (x y : ℝ) (ps : List StaticParticle) :
    ∀ init : NetField, (ps.foldl (accumStatic x y) init).x
      = init.x + (ps.map fun p => (getElecField p x y).x).sum := by
  induction ps with
  | nil => intro init; simp
  | cons p rest ih =>
      intro init
      simp only [List.foldl_cons, List.map_cons, List.sum_cons, ih, accumStatic]
      ring

lemma foldl_accumStatic_y (x y : ℝ) (ps : List StaticParticle) :
    ∀ init : NetField, (ps.foldl (accumStatic x y) init).y
      = init.y + (ps.map fun p => (getElecField p x y).y).sum := by
  induction ps with
  | nil => intro init; simp
  | cons p rest ih =>
      intro init
      simp only [List.foldl_cons, List.map_cons, List.sum_cons, ih, accumStatic]
      ring

lemma foldl_accumStatic_pot (x y : ℝ) (ps : List StaticParticle) :
    ∀ init : NetField, (ps.foldl (accumStatic x y) init).pot
      = init.pot + (ps.map fun p => (getElecField p x y).pot).sum := by
  induction ps with
  | nil => intro init; simp
  | cons p rest ih =>
      intro init
      simp only [List.foldl_cons, List.map_cons, List.sum_cons, ih, accumStatic]
      ring

lemma accumLocation_closestDist (x y : ℝ) (acc : NetField) (loc : StaticParticle) :
    (accumLocation x y acc loc).closestDist = acc.closestDist := by
  simp only [accumLocation]
  split <;> rfl

lemma accumLocation_pot (x y : ℝ) (acc : NetField) (loc : StaticParticle) :
    (accumLocation x y acc loc).pot = acc.pot := by
  simp only [accumLocation]
  split <;> rfl

lemma foldl_accumLocation_closestDist (x y : ℝ) (locs : List StaticParticle) :
    ∀ init : NetField, (locs.foldl (accumLocation x y) init).closestDist = init.closestDist := by
  induction locs with
  | nil => intro init; rfl
  | cons l rest ih =>
      intro init
      simp only [List.foldl_cons, ih, accumLocation_closestDist]

lemma foldl_accumLocation_pot (x y : ℝ) (locs : List StaticParticle) :
    ∀ init : NetField, (locs.foldl (accumLocation x y) init).pot = init.pot := by
  induction locs with
  | nil => intro init; rfl
  | cons l rest ih =>
      intro init
      simp only [List.foldl_cons, ih, accumLocation_pot]

lemma foldl_accumLocation_x (x y : ℝ) (locs : List StaticParticle) :
    ∀ init : NetField, (locs.foldl (accumLocation x y) init).x
      = init.x + (locs.map fun loc =>
          if TOO_CLOSE < (getElecField loc x y).dist then (getElecField loc x y).x else 0).sum := by
  induction locs with
  | nil => intro init; simp
  | cons l rest ih =>
      intro init
      simp only [List.foldl_cons, List.map_cons, List.sum_cons]
      rw [ih]
      by_cases h : TOO_CLOSE < (getElecField l x y).dist
      · simp [accumLocation, h, add_assoc]
      · simp [accumLocation, h]

lemma foldl_accumLocation_y (x y : ℝ) (locs : List StaticParticle) :
    ∀ init : NetField, (locs.foldl (accumLocation x y) init).y
      = init.y + (locs.map fun loc =>
          if TOO_CLOSE < (getElecField loc x y).dist then (getElecField loc x y).y else 0).sum := by
  induction locs with
  | nil => intro init; simp
  | cons l rest ih =>
      intro init
      simp only [List.foldl_cons, List.map_cons, List.sum_cons]
      rw [ih]
      by_cases h : TOO_CLOSE < (getElecField l x y).dist
      · simp [accumLocation, h, add_assoc]
      · simp [accumLocation, h]

lemma foldl_accumDynamic_closestDist (x y : ℝ) (dyns : List DynamicBody) :
    ∀ init : NetField, (dyns.foldl (accumDynamic x y) init).closestDist = init.closestDist := by
  induction dyns with
  | nil => intro init; rfl
  | cons d rest ih =>
      intro init
      simp only [List.foldl_cons, ih, accumDynamic, foldl_accumLocation_closestDist]

lemma foldl_accumDynamic_pot (x y : ℝ) (dyns : List DynamicBody) :
    ∀ init : NetField, (dyns.foldl (accumDynamic x y) init).pot = init.pot := by
  induction dyns with
  | nil => intro init; rfl
  | cons d rest ih =>
      intro init
      simp only [List.foldl_cons, ih, accumDynamic, foldl_accumLocation_pot]

lemma foldl_accumDynamic_x (x y : ℝ) (dyns : List DynamicBody) :
    ∀ init : NetField, (dyns.foldl (accumDynamic x y) init).x
      = init.x + (dyns.map fun dyn => (dyn.getChargeLocations.map fun loc =>
          if TOO_CLOSE < (getElecField loc x y).dist then (getElecField loc x y).x else 0).sum).sum := by
  induction dyns with
  | nil => intro init; simp
  | cons d rest ih =>
      intro init
      simp only [List.foldl_cons, List.map_cons, List.sum_cons, ih, accumDynamic,
        foldl_accumLocation_x]
      ring

lemma foldl_accumDynamic_y (x y : ℝ) (dyns : List DynamicBody) :
    ∀ init : NetField, (dyns.foldl (accumDynamic x y) init).y
      = init.y + (dyns.map fun dyn => (dyn.getChargeLocations.map fun loc =>
          if TOO_CLOSE < (getElecField loc x y).dist then (getElecField loc x y).y else 0).sum).sum := by
  induction dyns with
  | nil => intro init; simp
  | cons d rest ih =>
      intro init
      simp only [List.foldl_cons, List.map_cons, List.sum_cons, ih, accumDynamic,
        foldl_accumLocation_y]
      ring

/-- With no dynamic bodies the evaluator is just the static fold. -/
lemma getNetElecField_no_dynamics (ps : List StaticParticle) (x y : ℝ) :
    getNetElecField ps [] x y
      = ps.foldl (accumStatic x y) { x := 0, y := 0, pot := 0, closestDist := ⊤ } := rfl

/-- Claim C1 -/
theorem c1_contribution_and_superposition :
    (∀ (p : StaticParticle) (x y : ℝ), (x, y) ≠ (p.x, p.y) →
      0 < Real.sqrt ((x - p.x) * (x - p.x) + (y - p.y) * (y - p.y)) ∧
      (getElecField p x y).pot
        = K * p.charge / Real.sqrt ((x - p.x) * (x - p.x) + (y - p.y) * (y - p.y)) ∧
      (getElecField p x y).x
        = K * p.charge / Real.sqrt ((x - p.x) * (x - p.x) + (y - p.y) * (y - p.y)) ^ 2
          * ((x - p.x) / Real.sqrt ((x - p.x) * (x - p.x) + (y - p.y) * (y - p.y))) ∧
      (getElecField p x y).y
        = K * p.charge / Real.sqrt ((x - p.x) * (x - p.x) + (y - p.y) * (y - p.y)) ^ 2
          * ((y - p.y) / Real.sqrt ((x - p.x) * (x - p.x) + (y - p.y) * (y - p.y)))) ∧
    (∀ (ps : List StaticParticle) (x y : ℝ),
      (getNetElecField ps [] x y).x = (ps.map fun p => (getElecField p x y).x).sum ∧
      (getNetElecField ps [] x y).y = (ps.map fun p => (getElecField p x y).y).sum ∧
      (getNetElecField ps [] x y).pot = (ps.map fun p => (getElecField p x y).pot).sum) := by
  constructor
  · intro p x y hne
    have hsq : 0 < (x - p.x) * (x - p.x) + (y - p.y) * (y - p.y) := by
      have hor : x - p.x ≠ 0 ∨ y - p.y ≠ 0 := by
        by_contra hcon
        push_neg at hcon
        exact hne (by
          have hx : x = p.x := by linarith [hcon.1]
          have hy : y = p.y := by linarith [hcon.2]
          simp [hx, hy])
      rcases hor with h | h
      · have := mul_self_pos.mpr h
        nlinarith [mul_self_nonneg (y - p.y)]
      · have := mul_self_pos.mpr h
        nlinarith [mul_self_nonneg (x - p.x)]
    have hdpos : 0 < Real.sqrt ((x - p.x) * (x - p.x) + (y - p.y) * (y - p.y)) :=
      Real.sqrt_pos.mpr hsq
    have hd : Real.sqrt ((x - p.x) * (x - p.x) + (y - p.y) * (y - p.y)) ≠ 0 :=
      ne_of_gt hdpos
    refine ⟨hdpos, rfl, ?_, ?_⟩
    · show (x - p.x) / _ * (K * p.charge / _ / _) = _
      field_simp
      ring
    · show (y - p.y) / _ * (K * p.charge / _ / _) = _
      field_simp
      ring
  · intro ps x y
    refine ⟨?_, ?_, ?_⟩
    · rw [getNetElecField_no_dynamics, foldl_accumStatic_x]
      simp
    · rw [getNetElecField_no_dynamics, foldl_accumStatic_y]
      simp
    · rw [getNetElecField_no_dynamics, foldl_accumStatic_pot]
      simp

/-- Claim C1 witness -/
theorem c1_contribution_and_superposition_witness :
    ((1 : ℝ), (0 : ℝ)) ≠ (({ x := 0, y := 0, charge := 1e-9 } : StaticParticle).x,
      ({ x := 0, y := 0, charge := 1e-9 } : StaticParticle).y) ∧
    (0 < Real.sqrt ((1 - ({ x := 0, y := 0, charge := 1e-9 } : StaticParticle).x)
        * (1 - ({ x := 0, y := 0, charge := 1e-9 } : StaticParticle).x)
        + (0 - ({ x := 0, y := 0, charge := 1e-9 } : StaticParticle).y)
        * (0 - ({ x := 0, y := 0, charge := 1e-9 } : StaticParticle).y)) ∧
      (getElecField { x := 0, y := 0, charge := 1e-9 } 1 0).pot
        = K * ({ x := 0, y := 0, charge := 1e-9 } : StaticParticle).charge
          / Real.sqrt ((1 - ({ x := 0, y := 0, charge := 1e-9 } : StaticParticle).x)
            * (1 - ({ x := 0, y := 0, charge := 1e-9 } : StaticParticle).x)
            + (0 - ({ x := 0, y := 0, charge := 1e-9 } : StaticParticle).y)
            * (0 - ({ x := 0, y := 0, charge := 1e-9 } : StaticParticle).y)) ∧
      (getElecField { x := 0, y := 0, charge := 1e-9 } 1 0).x
        = K * ({ x := 0, y := 0, charge := 1e-9 } : StaticParticle).charge
          / Real.sqrt ((1 - ({ x := 0, y := 0, charge := 1e-9 } : StaticParticle).x)
            * (1 - ({ x := 0, y := 0, charge := 1e-9 } : StaticParticle).x)
            + (0 - ({ x := 0, y := 0, charge := 1e-9 } : StaticParticle).y)
            * (0 - ({ x := 0, y := 0, charge := 1e-9 } : StaticParticle).y)) ^ 2
          * ((1 - ({ x := 0, y := 0, charge := 1e-9 } : StaticParticle).x)
            / Real.sqrt ((1 - ({ x := 0, y := 0, charge := 1e-9 } : StaticParticle).x)
              * (1 - ({ x := 0, y := 0, charge := 1e-9 } : StaticParticle).x)
              + (0 - ({ x := 0, y := 0, charge := 1e-9 } : StaticParticle).y)
              * (0 - ({ x := 0, y := 0, charge := 1e-9 } : StaticParticle).y))) ∧
      (getElecField { x := 0, y := 0, charge := 1e-9 } 1 0).y
        = K * ({ x := 0, y := 0, charge := 1e-9 } : StaticParticle).charge
          / Real.sqrt ((1 - ({ x := 0, y := 0, charge := 1e-9 } : StaticParticle).x)
            * (1 - ({ x := 0, y := 0, charge := 1e-9 } : StaticParticle).x)
            + (0 - ({ x := 0, y := 0, charge := 1e-9 } : StaticParticle).y)
            * (0 - ({ x := 0, y := 0, charge := 1e-9 } : StaticParticle).y)) ^ 2
          * ((0 - ({ x := 0, y := 0, charge := 1e-9 } : StaticParticle).y)
            / Real.sqrt ((1 - ({ x := 0, y := 0, charge := 1e-9 } : StaticParticle).x)
              * (1 - ({ x := 0, y := 0, charge := 1e-9 } : StaticParticle).x)
              + (0 - ({ x := 0, y := 0, charge := 1e-9 } : StaticParticle).y)
              * (0 - ({ x := 0, y := 0, charge := 1e-9 } : StaticParticle).y)))) := by
  have hne : ((1 : ℝ), (0 : ℝ)) ≠ (({ x := 0, y := 0, charge := 1e-9 } : StaticParticle).x,
      ({ x := 0, y := 0, charge := 1e-9 } : StaticParticle).y) := by
    simp
  exact ⟨hne, c1_contribution_and_superposition.1 { x := 0, y := 0, charge := 1e-9 } 1 0 hne⟩

/-! ### Claim C2: dynamic sources and the nearest distance -/

/-- The static charge used in the C2 counterexample: +1 nC at (1, 0). -/
def S1 : StaticParticle := { x := 1, y := 0, charge := 1e-9 }

/-- A dynamic particle whose charge sits 0.01 m from the origin, well below
the proximity guard `TOO_CLOSE = 0.06`. -/
def pNear2 : DynamicParticle := { x := 1/100, y := 0, charge := 1e-9, mass := 3e-9, velX := 0, velY := 0 }

lemma sqrt_eval {a b : ℝ} (ha : 0 ≤ a) (h : b = a * a) : Real.sqrt b = a := by
  rw [h]
  exact Real.sqrt_mul_self ha

/-- Claim C2 counterexample -/
theorem c2_counterexample :
    (getElecField { x := 1/100, y := 0, charge := 1e-9 } 0 0).dist < TOO_CLOSE ∧
    (DynamicBody.particle pNear2).getChargeLocations
      = [{ x := 1/100, y := 0, charge := 1e-9 }] ∧
    ¬ ((getNetElecField [S1] [DynamicBody.particle pNear2] 0 0).closestDist
        ≤ ((getElecField { x := 1/100, y := 0, charge := 1e-9 } 0 0).dist : WithTop ℝ)) := by
  have hdist : (getElecField { x := 1/100, y := 0, charge := 1e-9 } 0 0).dist = 1/100 := by
    simp only [getElecField]
    rw [show ((0 : ℝ) - 1/100) * ((0 : ℝ) - 1/100) + ((0 : ℝ) - 0) * ((0 : ℝ) - 0)
      = (1/100) * (1/100) by norm_num]
    exact Real.sqrt_mul_self (by norm_num)
  have hclosest : (getNetElecField [S1] [DynamicBody.particle pNear2] 0 0).closestDist
      = ((1 : ℝ) : WithTop ℝ) := by
    unfold getNetElecField
    rw [foldl_accumDynamic_closestDist]
    have hS1 : (getElecField S1 0 0).dist = 1 := by
      simp only [getElecField, S1]
      rw [show ((0 : ℝ) - 1) * ((0 : ℝ) - 1) + ((0 : ℝ) - 0) * ((0 : ℝ) - 0)
        = 1 * 1 by norm_num]
      exact Real.sqrt_mul_self (by norm_num)
    simp [accumStatic, hS1]
  refine ⟨?_, rfl, ?_⟩
  · rw [hdist]
    norm_num [TOO_CLOSE, PIXELS_PER_METER]
  · rw [hclosest, hdist]
    intro hle
    rw [WithTop.coe_le_coe] at hle
    norm_num at hle

/-- Claim C2 as amended: below-guard charge locations of dynamic bodies are
excluded from the summed field, but their distance is NOT surfaced through
the returned `closestDist`, which only ever reflects the static charges. -/
theorem c2_exclusion_and_static_only_nearest (ps : List StaticParticle)
    (dyns : List DynamicBody) (x y : ℝ) :
    (getNetElecField ps dyns x y).closestDist = (getNetElecField ps [] x y).closestDist ∧
    (getNetElecField ps dyns x y).x = (getNetElecField ps [] x y).x
      + (dyns.map fun dyn => (dyn.getChargeLocations.map fun loc =>
          if TOO_CLOSE < (getElecField loc x y).dist then (getElecField loc x y).x else 0).sum).sum ∧
    (getNetElecField ps dyns x y).y = (getNetElecField ps [] x y).y
      + (dyns.map fun dyn => (dyn.getChargeLocations.map fun loc =>
          if TOO_CLOSE < (getElecField loc x y).dist then (getElecField loc x y).y else 0).sum).sum := by
  refine ⟨?_, ?_, ?_⟩
  · unfold getNetElecField
    rw [foldl_accumDynamic_closestDist]
    rfl
  · unfold getNetElecField
    rw [foldl_accumDynamic_x]
    rfl
  · unfold getNetElecField
    rw [foldl_accumDynamic_y]
    rfl

/-! ### Claim C3: self-exclusion is distance thresholding, not identity -/

lemma TOO_CLOSE_pos : 0 < TOO_CLOSE := by
  norm_num [TOO_CLOSE, PIXELS_PER_METER]

/-- Distance computed by `getElecField` between two points of a rigid body
at signed offsets `o1`, `o2` along its axis. -/
lemma dist_between_offsets (cx cy θ o1 o2 c : ℝ) :
    (getElecField { x := cx + o2 * Real.cos θ, y := cy + o2 * Real.sin θ, charge := c }
      (cx + o1 * Real.cos θ) (cy + o1 * Real.sin θ)).dist = |o1 - o2| := by
  simp only [getElecField]
  rw [show ((cx + o1 * Real.cos θ) - (cx + o2 * Real.cos θ))
        * ((cx + o1 * Real.cos θ) - (cx + o2 * Real.cos θ))
      + ((cy + o1 * Real.sin θ) - (cy + o2 * Real.sin θ))
        * ((cy + o1 * Real.sin θ) - (cy + o2 * Real.sin θ))
      = (o1 - o2) ^ 2 * ((Real.cos θ) ^ 2 + (Real.sin θ) ^ 2) by ring]
  rw [Real.cos_sq_add_sin_sq, mul_one, Real.sqrt_sq_eq_abs]

lemma getElecField_dist_self (loc : StaticParticle) :
    (getElecField loc loc.x loc.y).dist = 0 := by
  simp [getElecField]

/-- Claim C3 as amended: exclusion from the sum is purely distance-based
with threshold `TOO_CLOSE`.  A body's own charge location coinciding with
the evaluation point (distance 0) is excluded, but a dipole's other own
charge is excluded only when the charge spacing is itself below the guard:
at the standard spacing (0.5 m > 0.06 m) it contributes to the sum. -/
theorem c3_distance_based_self_exclusion :
    (∀ (ps : List StaticParticle) (b : DynamicParticle),
      (getNetElecField ps [DynamicBody.particle b] b.x b.y).x
        = (getNetElecField ps [] b.x b.y).x ∧
      (getNetElecField ps [DynamicBody.particle b] b.x b.y).y
        = (getNetElecField ps [] b.x b.y).y) ∧
    (∀ (ps : List StaticParticle) (d : DynamicDipole),
      (getNetElecField ps [DynamicBody.dipole d]
          (d.x + d.offset1 * Real.cos d.angle) (d.y + d.offset1 * Real.sin d.angle)).x
        = (getNetElecField ps [] (d.x + d.offset1 * Real.cos d.angle)
            (d.y + d.offset1 * Real.sin d.angle)).x
          + (if TOO_CLOSE < |d.offset2 - d.offset1| then
              (getElecField { x := d.x + d.offset2 * Real.cos d.angle, y := d.y + d.offset2 * Real.sin d.angle, charge := d.charge2 }
                (d.x + d.offset1 * Real.cos d.angle) (d.y + d.offset1 * Real.sin d.angle)).x
             else 0) ∧
      (getNetElecField ps [DynamicBody.dipole d]
          (d.x + d.offset1 * Real.cos d.angle) (d.y + d.offset1 * Real.sin d.angle)).y
        = (getNetElecField ps [] (d.x + d.offset1 * Real.cos d.angle)
            (d.y + d.offset1 * Real.sin d.angle)).y
          + (if TOO_CLOSE < |d.offset2 - d.offset1| then
              (getElecField { x := d.x + d.offset2 * Real.cos d.angle, y := d.y + d.offset2 * Real.sin d.angle, charge := d.charge2 }
                (d.x + d.offset1 * Real.cos d.angle) (d.y + d.offset1 * Real.sin d.angle)).y
             else 0)) := by
  have hguard0 : ¬ TOO_CLOSE < (0 : ℝ) := not_lt_of_lt TOO_CLOSE_pos
  constructor
  · intro ps b
    have hself : (getElecField { x := b.x, y := b.y, charge := b.charge } b.x b.y).dist = 0 :=
      getElecField_dist_self { x := b.x, y := b.y, charge := b.charge }
    constructor
    · unfold getNetElecField
      rw [foldl_accumDynamic_x]
      simp [DynamicBody.getChargeLocations, DynamicParticle.getChargeLocations, hself, hguard0]
    · unfold getNetElecField
      rw [foldl_accumDynamic_y]
      simp [DynamicBody.getChargeLocations, DynamicParticle.getChargeLocations, hself, hguard0]
  · intro ps d
    have hself : (getElecField { x := d.x + d.offset1 * Real.cos d.angle, y := d.y + d.offset1 * Real.sin d.angle, charge := d.charge1 }
        (d.x + d.offset1 * Real.cos d.angle) (d.y + d.offset1 * Real.sin d.angle)).dist = 0 :=
      getElecField_dist_self { x := d.x + d.offset1 * Real.cos d.angle, y := d.y + d.offset1 * Real.sin d.angle, charge := d.charge1 }
    have hother := dist_between_offsets d.x d.y d.angle d.offset1 d.offset2 d.charge2
    constructor
    · unfold getNetElecField
      rw [foldl_accumDynamic_x]
      simp only [DynamicBody.getChargeLocations, DynamicDipole.getChargeLocations,
        List.map_cons, List.map_nil, List.sum_cons, List.sum_nil, List.foldl_nil,
        hself, hother, hguard0, if_false, abs_sub_comm d.offset1 d.offset2]
      ring
    · unfold getNetElecField
      rw [foldl_accumDynamic_y]
      simp only [DynamicBody.getChargeLocations, DynamicDipole.getChargeLocations,
        List.map_cons, List.map_nil, List.sum_cons, List.sum_nil, List.foldl_nil,
        hself, hother, hguard0, if_false, abs_sub_comm d.offset1 d.offset2]
      ring

/-- The dipole of the C3 counterexample: the standard dipole spawned by the
sketch (charges ±1 nC, masses 3 ng, spacing 0.5 m) at the origin. -/
def dip3 : DynamicDipole := mkDynamicDipole 0 0 1e-9 (-1e-9) 3e-9 3e-9 (1/2)

/-- Claim C3 counterexample -/
theorem c3_counterexample :
    dip3.offset1 = -(1/4) ∧ dip3.offset2 = 1/4 ∧
    TOO_CLOSE < |dip3.offset2 - dip3.offset1| ∧
    (getNetElecField [] [DynamicBody.dipole dip3] (-(1/4)) 0).x ≠ 0 := by
  have ho1 : dip3.offset1 = -(1/4) := by
    simp only [dip3, mkDynamicDipole]
    norm_num
  have ho2 : dip3.offset2 = 1/4 := by
    simp only [dip3, mkDynamicDipole]
    norm_num
  refine ⟨ho1, ho2, ?_, ?_⟩
  · rw [ho1, ho2]
    rw [show (1/4 : ℝ) - -(1/4) = 1/2 by norm_num,
      abs_of_pos (by norm_num : (0:ℝ) < 1/2)]
    norm_num [TOO_CLOSE, PIXELS_PER_METER]
  · unfold getNetElecField
    rw [foldl_accumDynamic_x]
    have hlocs : dip3.getChargeLocations
        = [{ x := -(1/4), y := 0, charge := 1e-9 }, { x := 1/4, y := 0, charge := -1e-9 }] := by
      simp [DynamicDipole.getChargeLocations, dip3, mkDynamicDipole]
      norm_num
    have hd1 : (getElecField { x := -(1/4), y := 0, charge := 1e-9 } (-(1/4)) 0).dist = 0 := by
      simp [getElecField]
    have hd2 : (getElecField { x := 1/4, y := 0, charge := -1e-9 } (-(1/4)) 0).dist = 1/2 := by
      simp only [getElecField]
      rw [show (-(1/4 : ℝ) - 1/4) * (-(1/4 : ℝ) - 1/4) + ((0 : ℝ) - 0) * ((0 : ℝ) - 0)
        = (1/2) * (1/2) by norm_num]
      exact Real.sqrt_mul_self (by norm_num)
    have hx2 : (getElecField { x := 1/4, y := 0, charge := -1e-9 } (-(1/4)) 0).x
        = K * 1e-9 * 4 := by
      simp only [getElecField]
      rw [show (-(1/4 : ℝ) - 1/4) * (-(1/4 : ℝ) - 1/4) + ((0 : ℝ) - 0) * ((0 : ℝ) - 0)
        = (1/2) * (1/2) by norm_num]
      rw [Real.sqrt_mul_self (by norm_num : (0:ℝ) ≤ 1/2)]
      ring
    simp only [DynamicBody.getChargeLocations, hlocs, List.map_cons, List.map_nil,
      List.sum_cons, List.sum_nil, hd1, hd2, hx2]
    rw [if_neg (not_lt_of_lt TOO_CLOSE_pos)]
    rw [if_pos (by norm_num [TOO_CLOSE, PIXELS_PER_METER] : TOO_CLOSE < (1/2 : ℝ))]
    simp only [List.foldl_nil]
    norm_num [K]

/-! ### Claims C4 and C10: the singularity guard and body removal -/

/-- With a single static source the returned nearest distance is that
source's distance. -/
lemma getNetElecField_single_closest (p : StaticParticle) (x y : ℝ) :
    (getNetElecField [p] [] x y).closestDist = ((getElecField p x y).dist : WithTop ℝ) := by
  unfold getNetElecField
  simp [accumStatic, WithTop.coe_lt_top]

/-- The static charge at the origin used in several concrete scenarios. -/
def S0 : StaticParticle := { x := 0, y := 0, charge := 1e-9 }

/-- `pNear2` sits 0.01 m from `S0`, inside the proximity guard, so its
`update` call signals removal and leaves the body untouched. -/
lemma update_pNear2_S0 : DynamicParticle.update pNear2 [S0] [] 1 = (false, pNear2) := by
  have hdist : (getElecField S0 pNear2.x pNear2.y).dist = 1/100 := by
    simp only [getElecField, S0, pNear2]
    rw [show ((1/100 : ℝ) - 0) * ((1/100 : ℝ) - 0) + ((0 : ℝ) - 0) * ((0 : ℝ) - 0)
      = (1/100) * (1/100) by norm_num]
    exact Real.sqrt_mul_self (by norm_num)
  have hc : (getNetElecField [S0] [] pNear2.x pNear2.y).closestDist
      = ((1/100 : ℝ) : WithTop ℝ) := by
    rw [getNetElecField_single_closest, hdist]
  simp only [DynamicParticle.update, hc]
  rw [if_pos]
  exact WithTop.coe_lt_coe.mpr (by norm_num [TOO_CLOSE, PIXELS_PER_METER])

lemma idsOf_append (l₁ l₂ : List (ℕ × DynamicBody)) :
    idsOf (l₁ ++ l₂) = idsOf l₁ ++ idsOf l₂ := by
  simp [idsOf]

/-- Identity tags present after one pass were already present before it. -/
lemma idsOf_substepPass (ps : List StaticParticle) (inter : Bool) (dt : ℝ) :
    ∀ (l done : List (ℕ × DynamicBody)) (j : ℕ),
      j ∈ idsOf (substepPass ps inter dt done l) → j ∈ idsOf done ∨ j ∈ idsOf l := by
  intro l
  induction l with
  | nil =>
      intro done j h
      exact Or.inl h
  | cons hd rest ih =>
      intro done j h
      obtain ⟨i, b⟩ := hd
      simp only [substepPass] at h
      by_cases hr : (DynamicBody.update b ps
          (if inter then (done ++ (i, b) :: rest).map Prod.snd else []) dt).1 = true
      · rw [if_pos hr] at h
        rcases ih _ j h with h' | h'
        · rw [idsOf_append] at h'
          rcases List.mem_append.mp h' with h'' | h''
          · exact Or.inl h''
          · simp only [idsOf, List.map_cons, List.map_nil, List.mem_singleton] at h''
            subst h''
            exact Or.inr (List.mem_cons_self _ _)
        · exact Or.inr (List.mem_cons_of_mem i h')
      · rw [if_neg hr] at h
        rcases ih _ j h with h' | h'
        · exact Or.inl h'
        · exact Or.inr (List.mem_cons_of_mem i h')

/-- Identity tags never re-enter across the substeps of a frame. -/
lemma idsOf_stepFrame (ps : List StaticParticle) (inter : Bool) (dt : ℝ) :
    ∀ (n : ℕ) (l : List (ℕ × DynamicBody)) (j : ℕ),
      j ∈ idsOf (stepFrame ps inter dt n l) → j ∈ idsOf l := by
  intro n
  induction n with
  | zero => intro l j h; exact h
  | succ n ih =>
      intro l j h
      have h' := ih (substepPass ps inter dt [] l) j h
      rcases idsOf_substepPass ps inter dt l [] j h' with h'' | h''
      · simp [idsOf] at h''
      · exact h''

/-- Claim C4 -/
theorem c4_guard_removal_permanent :
    (∀ (b : DynamicParticle) (ps : List StaticParticle) (dyns : List DynamicBody) (dt : ℝ),
      (getNetElecField ps dyns b.x b.y).closestDist < (TOO_CLOSE : WithTop ℝ) →
      (DynamicParticle.update b ps dyns dt).1 = false ∧
        (DynamicParticle.update b ps dyns dt).2 = b) ∧
    (∀ (ps : List StaticParticle) (inter : Bool) (dt : ℝ)
        (done rest : List (ℕ × DynamicBody)) (i : ℕ) (b : DynamicBody),
      (DynamicBody.update b ps
          (if inter then (done ++ (i, b) :: rest).map Prod.snd else []) dt).1 = false →
      substepPass ps inter dt done ((i, b) :: rest) = substepPass ps inter dt done rest) ∧
    (∀ (ps : List StaticParticle) (inter : Bool) (dt : ℝ) (n : ℕ)
        (l : List (ℕ × DynamicBody)) (j : ℕ),
      j ∉ idsOf l → j ∉ idsOf (stepFrame ps inter dt n l)) ∧
    (∀ (ps : List StaticParticle) (inter : Bool) (dt : ℝ) (n : ℕ)
        (rest : List (ℕ × DynamicBody)) (i : ℕ) (b : DynamicBody),
      (DynamicBody.update b ps
          (if inter then ((i, b) :: rest).map Prod.snd else []) dt).1 = false →
      i ∉ idsOf rest →
      stepFrame ps inter dt (n + 1) ((i, b) :: rest)
          = stepFrame ps inter dt n (substepPass ps inter dt [] rest) ∧
        i ∉ idsOf (stepFrame ps inter dt (n + 1) ((i, b) :: rest))) := by
  have hskip : ∀ (ps : List StaticParticle) (inter : Bool) (dt : ℝ)
      (done rest : List (ℕ × DynamicBody)) (i : ℕ) (b : DynamicBody),
      (DynamicBody.update b ps
          (if inter then (done ++ (i, b) :: rest).map Prod.snd else []) dt).1 = false →
      substepPass ps inter dt done ((i, b) :: rest) = substepPass ps inter dt done rest := by
    intro ps inter dt done rest i b h
    simp only [substepPass, h]
    simp
  refine ⟨?_, hskip, ?_, ?_⟩
  · intro b ps dyns dt hguard
    simp only [DynamicParticle.update]
    rw [if_pos hguard]
    exact ⟨rfl, rfl⟩
  · intro ps inter dt n l j hnot hmem
    exact hnot (idsOf_stepFrame ps inter dt n l j hmem)
  · intro ps inter dt n rest i b hfalse hnotin
    have hpass : substepPass ps inter dt [] ((i, b) :: rest) = substepPass ps inter dt [] rest := by
      apply hskip
      simpa using hfalse
    have heq : stepFrame ps inter dt (n + 1) ((i, b) :: rest)
        = stepFrame ps inter dt n (substepPass ps inter dt [] rest) := by
      show stepFrame ps inter dt n (substepPass ps inter dt [] ((i, b) :: rest)) = _
      rw [hpass]
    refine ⟨heq, ?_⟩
    rw [heq]
    intro hmem
    have h1 := idsOf_stepFrame ps inter dt n _ i hmem
    rcases idsOf_substepPass ps inter dt rest [] i h1 with h2 | h2
    · simp [idsOf] at h2
    · exact hnotin h2

/-- Claim C4 witness -/
theorem c4_guard_removal_permanent_witness :
    (0 : ℕ) ∉ idsOf (stepFrame [S0] false 1 1 [(0, DynamicBody.particle pNear2)]) := by
  have hfalse : (DynamicBody.update (DynamicBody.particle pNear2) [S0]
      (if false then (((0 : ℕ), DynamicBody.particle pNear2) :: ([] : List (ℕ × DynamicBody))).map Prod.snd else []) 1).1 = false := by
    simp [DynamicBody.update, update_pNear2_S0]
  have h := (c4_guard_removal_permanent.2.2.2 [S0] false 1 0 [] 0
    (DynamicBody.particle pNear2) hfalse (by simp [idsOf]))
  exact h.2

/-- Claim C10 -/
theorem c10_removal_leaves_state_unchanged :
    (∀ (b : DynamicParticle) (ps : List StaticParticle) (dyns : List DynamicBody) (dt : ℝ),
      (DynamicParticle.update b ps dyns dt).1 = false →
      (DynamicParticle.update b ps dyns dt).2 = b) ∧
    (∀ (d : DynamicDipole) (ps : List StaticParticle) (dyns : List DynamicBody) (dt : ℝ),
      (DynamicDipole.update d ps dyns dt).1 = false →
      (DynamicDipole.update d ps dyns dt).2 = d) := by
  constructor
  · intro b ps dyns dt h
    simp only [DynamicParticle.update] at h ⊢
    by_cases hg : (getNetElecField ps dyns b.x b.y).closestDist < (TOO_CLOSE : WithTop ℝ)
    · rw [if_pos hg]
    · rw [if_neg hg] at h
      simp at h
  · intro d ps dyns dt h
    simp only [DynamicDipole.update] at h ⊢
    by_cases hg : (getNetElecField ps dyns (d.x + d.offset1 * Real.cos d.angle)
          (d.y + d.offset1 * Real.sin d.angle)).closestDist < (TOO_CLOSE : WithTop ℝ)
        ∨ (getNetElecField ps dyns (d.x + d.offset2 * Real.cos d.angle)
          (d.y + d.offset2 * Real.sin d.angle)).closestDist < (TOO_CLOSE : WithTop ℝ)
    · rw [if_pos hg]
    · rw [if_neg hg] at h
      simp at h

/-- Claim C10 witness -/
theorem c10_removal_leaves_state_unchanged_witness :
    (DynamicParticle.update pNear2 [S0] [] 1).1 = false ∧
    (DynamicParticle.update pNear2 [S0] [] 1).2 = pNear2 := by
  have h1 : (DynamicParticle.update pNear2 [S0] [] 1).1 = false := by
    rw [update_pNear2_S0]
  exact ⟨h1, c10_removal_leaves_state_unchanged.1 pNear2 [S0] [] 1 h1⟩

/-! ### Claim C5: semi-implicit (symplectic) Euler integration -/

/-- Claim C5: on every integrating substep, every velocity component (and
the dipole's angular velocity) is updated first from the acceleration, and
the position (and angle) is then advanced with the updated velocity. -/
theorem c5_symplectic_euler :
    (∀ (b : DynamicParticle) (ps : List StaticParticle) (dyns : List DynamicBody) (dt : ℝ),
      (DynamicParticle.update b ps dyns dt).1 = true →
      (DynamicParticle.update b ps dyns dt).2.velX
        = b.velX + (getNetElecField ps dyns b.x b.y).x * b.charge / b.mass * dt ∧
      (DynamicParticle.update b ps dyns dt).2.velY
        = b.velY + (getNetElecField ps dyns b.x b.y).y * b.charge / b.mass * dt ∧
      (DynamicParticle.update b ps dyns dt).2.x
        = b.x + (DynamicParticle.update b ps dyns dt).2.velX * dt ∧
      (DynamicParticle.update b ps dyns dt).2.y
        = b.y + (DynamicParticle.update b ps dyns dt).2.velY * dt) ∧
    (∀ (d : DynamicDipole) (ps : List StaticParticle) (dyns : List DynamicBody) (dt : ℝ),
      (DynamicDipole.update d ps dyns dt).1 = true →
      (DynamicDipole.update d ps dyns dt).2.velX
        = d.velX + ((getNetElecField ps dyns (d.x + d.offset1 * Real.cos d.angle)
              (d.y + d.offset1 * Real.sin d.angle)).x * d.charge1
            + (getNetElecField ps dyns (d.x + d.offset2 * Real.cos d.angle)
              (d.y + d.offset2 * Real.sin d.angle)).x * d.charge2) / d.mass * dt ∧
      (DynamicDipole.update d ps dyns dt).2.velY
        = d.velY + ((getNetElecField ps dyns (d.x + d.offset1 * Real.cos d.angle)
              (d.y + d.offset1 * Real.sin d.angle)).y * d.charge1
            + (getNetElecField ps dyns (d.x + d.offset2 * Real.cos d.angle)
              (d.y + d.offset2 * Real.sin d.angle)).y * d.charge2) / d.mass * dt ∧
      (DynamicDipole.update d ps dyns dt).2.rotVel
        = d.rotVel +
          (perpComponent ((d.x + d.offset1 * Real.cos d.angle) - d.x)
              ((d.y + d.offset1 * Real.sin d.angle) - d.y)
              ((getNetElecField ps dyns (d.x + d.offset1 * Real.cos d.angle)
                (d.y + d.offset1 * Real.sin d.angle)).x * d.charge1)
              ((getNetElecField ps dyns (d.x + d.offset1 * Real.cos d.angle)
                (d.y + d.offset1 * Real.sin d.angle)).y * d.charge1) * |d.offset1|
            + perpComponent ((d.x + d.offset2 * Real.cos d.angle) - d.x)
              ((d.y + d.offset2 * Real.sin d.angle) - d.y)
              ((getNetElecField ps dyns (d.x + d.offset2 * Real.cos d.angle)
                (d.y + d.offset2 * Real.sin d.angle)).x * d.charge2)
              ((getNetElecField ps dyns (d.x + d.offset2 * Real.cos d.angle)
                (d.y + d.offset2 * Real.sin d.angle)).y * d.charge2) * |d.offset2|)
            / d.moi * dt ∧
      (DynamicDipole.update d ps dyns dt).2.x
        = d.x + (DynamicDipole.update d ps dyns dt).2.velX * dt ∧
      (DynamicDipole.update d ps dyns dt).2.y
        = d.y + (DynamicDipole.update d ps dyns dt).2.velY * dt ∧
      (DynamicDipole.update d ps dyns dt).2.angle
        = d.angle + (DynamicDipole.update d ps dyns dt).2.rotVel * dt) := by
  constructor
  · intro b ps dyns dt h
    simp only [DynamicParticle.update] at h ⊢
    by_cases hg : (getNetElecField ps dyns b.x b.y).closestDist < (TOO_CLOSE : WithTop ℝ)
    · rw [if_pos hg] at h
      simp at h
    · rw [if_neg hg]
      exact ⟨rfl, rfl, rfl, rfl⟩
  · intro d ps dyns dt h
    simp only [DynamicDipole.update] at h ⊢
    by_cases hg : (getNetElecField ps dyns (d.x + d.offset1 * Real.cos d.angle)
          (d.y + d.offset1 * Real.sin d.angle)).closestDist < (TOO_CLOSE : WithTop ℝ)
        ∨ (getNetElecField ps dyns (d.x + d.offset2 * Real.cos d.angle)
          (d.y + d.offset2 * Real.sin d.angle)).closestDist < (TOO_CLOSE : WithTop ℝ)
    · rw [if_pos hg] at h
      simp at h
    · rw [if_neg hg]
      exact ⟨rfl, rfl, rfl, rfl, rfl, rfl⟩

/-- A dynamic particle at rest 1 m from `S0`: its update integrates. -/
def pFar : DynamicParticle := { x := 1, y := 0, charge := 1e-9, mass := 3e-9, velX := 0, velY := 0 }

lemma update_pFar_keep : (DynamicParticle.update pFar [S0] [] 1).1 = true := by
  have hdist : (getElecField S0 pFar.x pFar.y).dist = 1 := by
    simp only [getElecField, S0, pFar]
    rw [show ((1 : ℝ) - 0) * ((1 : ℝ) - 0) + ((0 : ℝ) - 0) * ((0 : ℝ) - 0) = 1 * 1 by norm_num]
    exact Real.sqrt_mul_self (by norm_num)
  have hc : (getNetElecField [S0] [] pFar.x pFar.y).closestDist = ((1 : ℝ) : WithTop ℝ) := by
    rw [getNetElecField_single_closest, hdist]
  simp only [DynamicParticle.update, hc]
  rw [if_neg]
  intro hlt
  rw [WithTop.coe_lt_coe] at hlt
  norm_num [TOO_CLOSE, PIXELS_PER_METER] at hlt

/-- The static charge used in the dipole scenarios: +1 nC at (−1/4, 1),
directly above the dipole's first charge. -/
def Sd : StaticParticle := { x := -(1/4), y := 1, charge := 1e-9 }

/-- The dipole of the C6 scenario: charge1 = +1 nC, charge2 = 0 (the
constructor accepts any charges), masses 3 ng each, spacing 0.5 m. -/
def dipC : DynamicDipole := mkDynamicDipole 0 0 1e-9 0 3e-9 3e-9 (1/2)

lemma dipC_eval :
    dipC = (⟨0, 0, 0, 1e-9, 0, 0, 0, 0, -(1/4), 1/4, 6e-9, 3.75e-10⟩ : DynamicDipole) := by
  simp only [dipC, mkDynamicDipole, DynamicDipole.mk.injEq]
  norm_num

/-- Net field of `[Sd]` at the point (−1/4, 0). -/
lemma net_Sd_loc1 : getNetElecField [Sd] [] (-(1/4)) 0
    = { x := 0, y := -(8.99), pot := 8.99, closestDist := ((1 : ℝ) : WithTop ℝ) } := by
  have hfield : getElecField Sd (-(1/4)) 0
      = { x := 0, y := -(8.99), pot := 8.99, dist := 1 } := by
    simp only [getElecField, Sd, ElecField.mk.injEq]
    rw [show (-(1/4 : ℝ) - -(1/4)) * (-(1/4 : ℝ) - -(1/4)) + ((0 : ℝ) - 1) * ((0 : ℝ) - 1)
      = 1 * 1 by norm_num]
    rw [Real.sqrt_mul_self (by norm_num : (0:ℝ) ≤ 1)]
    norm_num [K]
  unfold getNetElecField
  simp only [List.foldl_nil, List.foldl_cons, accumStatic, hfield]
  rw [if_pos (WithTop.coe_lt_top (1 : ℝ))]
  simp [NetField.mk.injEq]

/-- At the point (1/4, 0) the single source `Sd` is at distance √(5/4) ≥ 1,
comfortably outside the proximity guard. -/
lemma net_Sd_loc2_far :
    ¬ (getNetElecField [Sd] [] (1/4) 0).closestDist < (TOO_CLOSE : WithTop ℝ) := by
  rw [getNetElecField_single_closest]
  have hge : (1 : ℝ) ≤ (getElecField Sd (1/4) 0).dist := by
    simp only [getElecField, Sd]
    calc (1 : ℝ) = Real.sqrt 1 := (Real.sqrt_one).symm
      _ ≤ _ := Real.sqrt_le_sqrt (by norm_num)
  intro hlt
  rw [WithTop.coe_lt_coe] at hlt
  have : TOO_CLOSE ≤ 1 := by norm_num [TOO_CLOSE, PIXELS_PER_METER]
  linarith

lemma dipC_pt1x : dipC.x + dipC.offset1 * Real.cos dipC.angle = -(1/4) := by
  rw [dipC_eval]
  norm_num [Real.cos_zero]

lemma dipC_pt1y : dipC.y + dipC.offset1 * Real.sin dipC.angle = 0 := by
  rw [dipC_eval]
  norm_num [Real.sin_zero]

lemma dipC_pt2x : dipC.x + dipC.offset2 * Real.cos dipC.angle = 1/4 := by
  rw [dipC_eval]
  norm_num [Real.cos_zero]

lemma dipC_pt2y : dipC.y + dipC.offset2 * Real.sin dipC.angle = 0 := by
  rw [dipC_eval]
  norm_num [Real.sin_zero]

lemma dipC_keep : (DynamicDipole.update dipC [Sd] [] 1).1 = true := by
  simp only [DynamicDipole.update, dipC_pt1x, dipC_pt1y, dipC_pt2x, dipC_pt2y,
    net_Sd_loc1]
  have hnc : ¬ (((1 : ℝ) : WithTop ℝ) < (TOO_CLOSE : WithTop ℝ)
      ∨ (getNetElecField [Sd] [] (1/4) 0).closestDist < (TOO_CLOSE : WithTop ℝ)) := by
    rintro (h | h)
    · rw [WithTop.coe_lt_coe] at h
      norm_num [TOO_CLOSE, PIXELS_PER_METER] at h
    · exact net_Sd_loc2_far h
  rw [if_neg hnc]

/-- Claim C5 witness -/
theorem c5_symplectic_euler_witness :
    ((DynamicParticle.update pFar [S0] [] 1).1 = true ∧
      (DynamicParticle.update pFar [S0] [] 1).2.velX
        = pFar.velX + (getNetElecField [S0] [] pFar.x pFar.y).x * pFar.charge / pFar.mass * 1 ∧
      (DynamicParticle.update pFar [S0] [] 1).2.x
        = pFar.x + (DynamicParticle.update pFar [S0] [] 1).2.velX * 1) ∧
    ((DynamicDipole.update dipC [Sd] [] 1).1 = true ∧
      (DynamicDipole.update dipC [Sd] [] 1).2.angle
        = dipC.angle + (DynamicDipole.update dipC [Sd] [] 1).2.rotVel * 1) := by
  constructor
  · have h := c5_symplectic_euler.1 pFar [S0] [] 1 update_pFar_keep
    exact ⟨update_pFar_keep, h.1, h.2.2.1⟩
  · have h := c5_symplectic_euler.2 dipC [Sd] [] 1 dipC_keep
    exact ⟨dipC_keep, h.2.2.2.2.2⟩

/-! ### Claim C6: dipole torque computation -/

/-- On integrating substeps, the new angular velocity follows the code's
torque formula: each charge's torque is `perpComponent` of its force
against its radial offset vector, times the ABSOLUTE value of its offset
(src/sketch.js lines 214-215 use `abs(this.offset1)` / `abs(this.offset2)`). -/
lemma dipole_update_rotVel_eq (d : DynamicDipole) (ps : List StaticParticle)
    (dyns : List DynamicBody) (dt : ℝ)
    (h : (DynamicDipole.update d ps dyns dt).1 = true) :
    (DynamicDipole.update d ps dyns dt).2.rotVel
      = d.rotVel +
        (perpComponent ((d.x + d.offset1 * Real.cos d.angle) - d.x)
            ((d.y + d.offset1 * Real.sin d.angle) - d.y)
            ((getNetElecField ps dyns (d.x + d.offset1 * Real.cos d.angle)
              (d.y + d.offset1 * Real.sin d.angle)).x * d.charge1)
            ((getNetElecField ps dyns (d.x + d.offset1 * Real.cos d.angle)
              (d.y + d.offset1 * Real.sin d.angle)).y * d.charge1) * |d.offset1|
          + perpComponent ((d.x + d.offset2 * Real.cos d.angle) - d.x)
            ((d.y + d.offset2 * Real.sin d.angle) - d.y)
            ((getNetElecField ps dyns (d.x + d.offset2 * Real.cos d.angle)
              (d.y + d.offset2 * Real.sin d.angle)).x * d.charge2)
            ((getNetElecField ps dyns (d.x + d.offset2 * Real.cos d.angle)
              (d.y + d.offset2 * Real.sin d.angle)).y * d.charge2) * |d.offset2|)
          / d.moi * dt := by
  simp only [DynamicDipole.update] at h ⊢
  by_cases hg : (getNetElecField ps dyns (d.x + d.offset1 * Real.cos d.angle)
        (d.y + d.offset1 * Real.sin d.angle)).closestDist < (TOO_CLOSE : WithTop ℝ)
      ∨ (getNetElecField ps dyns (d.x + d.offset2 * Real.cos d.angle)
        (d.y + d.offset2 * Real.sin d.angle)).closestDist < (TOO_CLOSE : WithTop ℝ)
  · rw [if_pos hg] at h
    simp at h
  · rw [if_neg hg]

/-- Claim C6 counterexample: at a concrete integrating substep the code's
new angular velocity differs from the value predicted with SIGNED offsets
(the multiplier the claim prescribes); sketch.js multiplies by the
absolute offsets instead. -/
theorem c6_counterexample :
    (DynamicDipole.update dipC [Sd] [] 1).1 = true ∧
    (DynamicDipole.update dipC [Sd] [] 1).2.rotVel
      ≠ dipC.rotVel +
        (perpComponent ((dipC.x + dipC.offset1 * Real.cos dipC.angle) - dipC.x)
            ((dipC.y + dipC.offset1 * Real.sin dipC.angle) - dipC.y)
            ((getNetElecField [Sd] [] (dipC.x + dipC.offset1 * Real.cos dipC.angle)
              (dipC.y + dipC.offset1 * Real.sin dipC.angle)).x * dipC.charge1)
            ((getNetElecField [Sd] [] (dipC.x + dipC.offset1 * Real.cos dipC.angle)
              (dipC.y + dipC.offset1 * Real.sin dipC.angle)).y * dipC.charge1) * dipC.offset1
          + perpComponent ((dipC.x + dipC.offset2 * Real.cos dipC.angle) - dipC.x)
            ((dipC.y + dipC.offset2 * Real.sin dipC.angle) - dipC.y)
            ((getNetElecField [Sd] [] (dipC.x + dipC.offset2 * Real.cos dipC.angle)
              (dipC.y + dipC.offset2 * Real.sin dipC.angle)).x * dipC.charge2)
            ((getNetElecField [Sd] [] (dipC.x + dipC.offset2 * Real.cos dipC.angle)
              (dipC.y + dipC.offset2 * Real.sin dipC.angle)).y * dipC.charge2) * dipC.offset2)
          / dipC.moi * 1 := by
  refine ⟨dipC_keep, ?_⟩
  rw [dipole_update_rotVel_eq dipC [Sd] [] 1 dipC_keep]
  rw [dipC_pt1x, dipC_pt1y, dipC_pt2x, dipC_pt2y, net_Sd_loc1, dipC_eval]
  simp only [perpComponent]
  rw [show (-(1/4 : ℝ) - 0) * (-(1/4 : ℝ) - 0) + ((0 : ℝ) - 0) * ((0 : ℝ) - 0)
    = (1/4) * (1/4) by norm_num]
  rw [Real.sqrt_mul_self (by norm_num : (0:ℝ) ≤ 1/4)]
  rw [show |(-(1/4) : ℝ)| = 1/4 by rw [abs_neg]; exact abs_of_pos (by norm_num)]
  rw [show |(1/4 : ℝ)| = 1/4 from abs_of_pos (by norm_num)]
  norm_num

/-- Claim C6 as amended: torque per charge is the perpendicular force
component times the ABSOLUTE offset magnitude, and the angular acceleration
is the torque sum over the moment of inertia. -/
theorem c6_torque_uses_absolute_offsets (d : DynamicDipole) (ps : List StaticParticle)
    (dyns : List DynamicBody) (dt : ℝ)
    (h : (DynamicDipole.update d ps dyns dt).1 = true) :
    (DynamicDipole.update d ps dyns dt).2.rotVel
      = d.rotVel +
        (perpComponent ((d.x + d.offset1 * Real.cos d.angle) - d.x)
            ((d.y + d.offset1 * Real.sin d.angle) - d.y)
            ((getNetElecField ps dyns (d.x + d.offset1 * Real.cos d.angle)
              (d.y + d.offset1 * Real.sin d.angle)).x * d.charge1)
            ((getNetElecField ps dyns (d.x + d.offset1 * Real.cos d.angle)
              (d.y + d.offset1 * Real.sin d.angle)).y * d.charge1) * |d.offset1|
          + perpComponent ((d.x + d.offset2 * Real.cos d.angle) - d.x)
            ((d.y + d.offset2 * Real.sin d.angle) - d.y)
            ((getNetElecField ps dyns (d.x + d.offset2 * Real.cos d.angle)
              (d.y + d.offset2 * Real.sin d.angle)).x * d.charge2)
            ((getNetElecField ps dyns (d.x + d.offset2 * Real.cos d.angle)
              (d.y + d.offset2 * Real.sin d.angle)).y * d.charge2) * |d.offset2|)
          / d.moi * dt :=
  dipole_update_rotVel_eq d ps dyns dt h

/-- Claim C6 witness -/
theorem c6_torque_uses_absolute_offsets_witness :
    (DynamicDipole.update dipC [Sd] [] 1).1 = true ∧
    (DynamicDipole.update dipC [Sd] [] 1).2.rotVel
      = dipC.rotVel +
        (perpComponent ((dipC.x + dipC.offset1 * Real.cos dipC.angle) - dipC.x)
            ((dipC.y + dipC.offset1 * Real.sin dipC.angle) - dipC.y)
            ((getNetElecField [Sd] [] (dipC.x + dipC.offset1 * Real.cos dipC.angle)
              (dipC.y + dipC.offset1 * Real.sin dipC.angle)).x * dipC.charge1)
            ((getNetElecField [Sd] [] (dipC.x + dipC.offset1 * Real.cos dipC.angle)
              (dipC.y + dipC.offset1 * Real.sin dipC.angle)).y * dipC.charge1) * |dipC.offset1|
          + perpComponent ((dipC.x + dipC.offset2 * Real.cos dipC.angle) - dipC.x)
            ((dipC.y + dipC.offset2 * Real.sin dipC.angle) - dipC.y)
            ((getNetElecField [Sd] [] (dipC.x + dipC.offset2 * Real.cos dipC.angle)
              (dipC.y + dipC.offset2 * Real.sin dipC.angle)).x * dipC.charge2)
            ((getNetElecField [Sd] [] (dipC.x + dipC.offset2 * Real.cos dipC.angle)
              (dipC.y + dipC.offset2 * Real.sin dipC.angle)).y * dipC.charge2) * |dipC.offset2|)
          / dipC.moi * 1 :=
  ⟨dipC_keep, c6_torque_uses_absolute_offsets dipC [Sd] [] 1 dipC_keep⟩

/-! ### Claim C7: dipole construction invariants -/

/-- Claim C7 -/
theorem c7_dipole_invariants :
    (∀ (x y charge1 charge2 mass1 mass2 spacing : ℝ), mass1 + mass2 ≠ 0 →
      mass1 * (mkDynamicDipole x y charge1 charge2 mass1 mass2 spacing).offset1
        + mass2 * (mkDynamicDipole x y charge1 charge2 mass1 mass2 spacing).offset2 = 0 ∧
      (mkDynamicDipole x y charge1 charge2 mass1 mass2 spacing).moi
        = mass1 * (mkDynamicDipole x y charge1 charge2 mass1 mass2 spacing).offset1 ^ 2
          + mass2 * (mkDynamicDipole x y charge1 charge2 mass1 mass2 spacing).offset2 ^ 2) ∧
    (∀ (d : DynamicDipole) (ps : List StaticParticle) (dyns : List DynamicBody) (dt : ℝ),
      (DynamicDipole.update d ps dyns dt).2.offset1 = d.offset1 ∧
      (DynamicDipole.update d ps dyns dt).2.offset2 = d.offset2 ∧
      (DynamicDipole.update d ps dyns dt).2.mass = d.mass ∧
      (DynamicDipole.update d ps dyns dt).2.moi = d.moi) := by
  constructor
  · intro x y charge1 charge2 mass1 mass2 spacing hm
    constructor
    · simp only [mkDynamicDipole]
      field_simp
      ring
    · simp only [mkDynamicDipole]
      ring
  · intro d ps dyns dt
    simp only [DynamicDipole.update]
    by_cases hg : (getNetElecField ps dyns (d.x + d.offset1 * Real.cos d.angle)
          (d.y + d.offset1 * Real.sin d.angle)).closestDist < (TOO_CLOSE : WithTop ℝ)
        ∨ (getNetElecField ps dyns (d.x + d.offset2 * Real.cos d.angle)
          (d.y + d.offset2 * Real.sin d.angle)).closestDist < (TOO_CLOSE : WithTop ℝ)
    · rw [if_pos hg]
      exact ⟨rfl, rfl, rfl, rfl⟩
    · rw [if_neg hg]
      exact ⟨rfl, rfl, rfl, rfl⟩

/-- Claim C7 witness -/
theorem c7_dipole_invariants_witness :
    ((3e-9 : ℝ) + 3e-9 ≠ 0) ∧
    (3e-9 : ℝ) * (mkDynamicDipole 0 0 1e-9 0 3e-9 3e-9 (1/2)).offset1
      + 3e-9 * (mkDynamicDipole 0 0 1e-9 0 3e-9 3e-9 (1/2)).offset2 = 0 ∧
    (mkDynamicDipole 0 0 1e-9 0 3e-9 3e-9 (1/2)).moi
      = 3e-9 * (mkDynamicDipole 0 0 1e-9 0 3e-9 3e-9 (1/2)).offset1 ^ 2
        + 3e-9 * (mkDynamicDipole 0 0 1e-9 0 3e-9 3e-9 (1/2)).offset2 ^ 2 := by
  have hm : (3e-9 : ℝ) + 3e-9 ≠ 0 := by norm_num
  have h := c7_dipole_invariants.1 0 0 1e-9 0 3e-9 3e-9 (1/2) hm
  exact ⟨hm, h.1, h.2⟩

/-! ### Claim C8: the tracer has no zero-field guard -/

/-- Two equal positive static charges at (±1, 0): their fields cancel
exactly at the origin. -/
def psC8 : List StaticParticle :=
  [{ x := -1, y := 0, charge := 1e-9 }, { x := 1, y := 0, charge := 1e-9 }]

/-- Claim C8 (code evaluated at the failing input): at the origin the
static field of `psC8` is exactly zero, yet the micro-step is NOT skipped:
the step still runs the normalization, still emits a segment for the step
and still overwrites `prevPotential` (in JavaScript float semantics the
direction is `0/0 = NaN` and the position is corrupted; under Lean's total
division the direction collapses to 0). -/
theorem c8_zero_field_step_not_skipped :
    (getNetElecField psC8 [] 0 0).x = 0 ∧
    (getNetElecField psC8 [] 0 0).y = 0 ∧
    FlowLineTracer.microStep { x := 0, y := 0, direction := 1, distSinceArrow := 0, prevPotential := none } psC8 5
      = { tracer := { x := 0, y := 0, direction := 1, distSinceArrow := 0, prevPotential := some (899/50) }
          segment := ((0, 0), (0, 0))
          arrowDrawn := false } := by
  have hf1 : getElecField { x := -1, y := 0, charge := 1e-9 } 0 0
      = { x := 8.99, y := 0, pot := 8.99, dist := 1 } := by
    simp only [getElecField, ElecField.mk.injEq]
    rw [show ((0 : ℝ) - (-1)) * ((0 : ℝ) - (-1)) + ((0 : ℝ) - 0) * ((0 : ℝ) - 0)
      = 1 * 1 by norm_num]
    rw [Real.sqrt_mul_self (by norm_num : (0:ℝ) ≤ 1)]
    norm_num [K]
  have hf2 : getElecField { x := 1, y := 0, charge := 1e-9 } 0 0
      = { x := -(8.99), y := 0, pot := 8.99, dist := 1 } := by
    simp only [getElecField, ElecField.mk.injEq]
    rw [show ((0 : ℝ) - 1) * ((0 : ℝ) - 1) + ((0 : ℝ) - 0) * ((0 : ℝ) - 0)
      = 1 * 1 by norm_num]
    rw [Real.sqrt_mul_self (by norm_num : (0:ℝ) ≤ 1)]
    norm_num [K]
  have hnet : getNetElecField psC8 [] 0 0
      = { x := 0, y := 0, pot := 899/50, closestDist := ((1 : ℝ) : WithTop ℝ) } := by
    unfold getNetElecField psC8
    simp only [List.foldl_cons, List.foldl_nil, accumStatic, hf1, hf2]
    rw [if_pos (WithTop.coe_lt_top (1 : ℝ))]
    rw [if_neg (lt_irrefl ((1 : ℝ) : WithTop ℝ))]
    simp only [NetField.mk.injEq]
    norm_num
  refine ⟨by rw [hnet], by rw [hnet], ?_⟩
  simp only [FlowLineTracer.microStep, hnet]
  rw [show (0 : ℝ) * 0 + 0 * 0 = 0 by norm_num, Real.sqrt_zero]
  simp [TracerStepResult.mk.injEq, FlowLineTracer.mk.injEq]

/-! ### Claim C9: distance-based arrow spacing in the earlier iteration -/

lemma v0_step_distance_val : V0.TRACER_STEP_DISTANCE = 1/40 := by
  norm_num [V0.TRACER_STEP_DISTANCE]

lemma v0_step_dist (ps : List StaticParticle) (t : V0.FlowLineTracer) (s : ℝ) (hs : 0 < s) :
    ((V0.FlowLineTracer.microStep t ps s).1.distSinceArrow
        = if s ≤ t.distSinceArrow + V0.TRACER_STEP_DISTANCE
          then t.distSinceArrow + V0.TRACER_STEP_DISTANCE - s
          else t.distSinceArrow + V0.TRACER_STEP_DISTANCE) ∧
    ((V0.FlowLineTracer.microStep t ps s).2 = true
        ↔ s ≤ t.distSinceArrow + V0.TRACER_STEP_DISTANCE) := by
  simp only [V0.FlowLineTracer.microStep]
  rw [if_pos hs]
  by_cases h : s ≤ t.distSinceArrow + V0.TRACER_STEP_DISTANCE
  · rw [if_pos h, if_pos h]
    simp [h]
  · rw [if_neg h, if_neg h]
    simp [h]

/-- Phase invariant of the arclength accumulator at unit spacing: after `n`
micro-steps starting in phase `k`, the accumulator holds phase `(k+n) % 40`
(in units of `TRACER_STEP_DISTANCE = 1/40`). -/
lemma v0_dist_invariant (ps : List StaticParticle) :
    ∀ (n k : ℕ) (t : V0.FlowLineTracer),
      t.distSinceArrow = ((k % 40 : ℕ) : ℝ) / 40 →
      (V0.iterSteps ps 1 n t).distSinceArrow = (((k + n) % 40 : ℕ) : ℝ) / 40 := by
  intro n
  induction n with
  | zero =>
      intro k t ht
      simpa using ht
  | succ n ih =>
      intro k t ht
      show (V0.iterSteps ps 1 n (V0.FlowLineTracer.microStep t ps 1).1).distSinceArrow = _
      have hm : k % 40 < 40 := Nat.mod_lt _ (by norm_num)
      have hstep : (V0.FlowLineTracer.microStep t ps 1).1.distSinceArrow
          = (((k + 1) % 40 : ℕ) : ℝ) / 40 := by
        rw [(v0_step_dist ps t 1 (by norm_num)).1, ht, v0_step_distance_val]
        by_cases h39 : k % 40 = 39
        · rw [if_pos (by rw [h39]; norm_num)]
          rw [h39, show (k + 1) % 40 = 0 from by omega]
          norm_num
        · have hle : (k % 40 : ℕ) ≤ 38 := by omega
          have hle' : ((k % 40 : ℕ) : ℝ) ≤ 38 := by exact_mod_cast hle
          rw [if_neg (by intro hcon; linarith)]
          rw [show (k + 1) % 40 = k % 40 + 1 from by omega]
          push_cast
          ring
      have hres := ih (k + 1) (V0.FlowLineTracer.microStep t ps 1).1 hstep
      rw [show k + 1 + n = k + (n + 1) from by omega] at hres
      exact hres

/-- Claim C9: with `stepDistance = 0.025` and `spacing = 1.0`, a tracer
emits exactly one arrow mark every 40 micro-steps, regardless of the
10-step frame grouping (the state persists across frames), because the
accumulator is reset by subtraction. -/
theorem c9_arrow_every_40_steps :
    V0.TRACER_STEP_DISTANCE = 1/40 ∧
    (∀ (ps : List StaticParticle) (t : V0.FlowLineTracer), t.distSinceArrow = 0 →
      (∀ n : ℕ, (V0.iterSteps ps 1 n t).distSinceArrow
          = ((n % 40 : ℕ) : ℝ) * V0.TRACER_STEP_DISTANCE) ∧
      (∀ n : ℕ, V0.emitsAt ps 1 t n = true ↔ 40 ∣ (n + 1))) := by
  refine ⟨v0_step_distance_val, ?_⟩
  intro ps t ht
  have hdist : ∀ n : ℕ, (V0.iterSteps ps 1 n t).distSinceArrow = ((n % 40 : ℕ) : ℝ) / 40 := by
    intro n
    have h0 : t.distSinceArrow = (((0 : ℕ) % 40 : ℕ) : ℝ) / 40 := by
      rw [ht]
      norm_num
    have := v0_dist_invariant ps n 0 t h0
    rwa [Nat.zero_add] at this
  constructor
  · intro n
    rw [hdist n, v0_step_distance_val]
    ring
  · intro n
    unfold V0.emitsAt
    rw [(v0_step_dist ps (V0.iterSteps ps 1 n t) 1 (by norm_num)).2]
    rw [hdist n, v0_step_distance_val]
    have hm : n % 40 < 40 := Nat.mod_lt _ (by norm_num)
    constructor
    · intro h
      have h39r : (39 : ℝ) ≤ ((n % 40 : ℕ) : ℝ) := by linarith
      have h39 : (39 : ℕ) ≤ n % 40 := by exact_mod_cast h39r
      omega
    · intro h
      have h39 : n % 40 = 39 := by omega
      rw [h39]
      norm_num

/-- Claim C9 witness -/
theorem c9_arrow_every_40_steps_witness :
    V0.emitsAt [] 1 { x := 0, y := 0, direction := 1, distSinceArrow := 0 } 39 = true := by
  have h := (c9_arrow_every_40_steps.2 [] { x := 0, y := 0, direction := 1, distSinceArrow := 0 } rfl).2 39
  exact h.mpr (by norm_num)

end
